import Mathlib

/-!
A verification development for the method-inlining engine of the redex
bytecode optimizer.  The repository ships the engine's unit tests
(`src/test/unit/MethodInlineTest.cpp`) and the shrinker interface
(`src/service/shrinker/Shrinker.h`); the engine itself (the CFG splicer,
the legality checker, the profitability estimator and the concurrency
coordinator) is not part of the sources, so the definitions below are
modelled from the specification (spec.md §3–§6), with the unit tests'
concrete scenarios used as evaluation points.
-/

namespace Redex

/-- Kind of a callee parameter: a scalar (int-like) or an object reference.
Mirrors the typed move selection of the splicer (spec §4.4, argument
binding). -/
inductive ParamKind
  | scalar
  | object
deriving DecidableEq, Repr

/-- A simplified dex-style instruction, covering the opcodes exercised by
the unit tests of `MethodInlineTest.cpp`.  Registers are natural numbers;
branch targets are abstract labels. -/
inductive Instr
  | const (dst : Nat) (v : Int)
  | move (dst src : Nat)
  | moveObject (dst src : Nat)
  | addInt (dst s1 s2 : Nat)
  | invokeStatic (callee : Nat) (args : List Nat)
  | invokeDirect (callee : Nat) (args : List Nat)
  | newInstance (dst : Nat)
  | constString (dst : Nat)
  | ifEqz (src : Nat) (target : Nat)
  | goto (target : Nat)
  | throwI (src : Nat)
  | ret (src : Nat)
  | retVoid
deriving DecidableEq, Repr

/-- Register renumbering applied to one instruction: every register is
shifted by a fixed offset (spec §4.4, register/variable renumbering). -/
def remapInstr (off : Nat) : Instr → Instr
  | .const d v => .const (d + off) v
  | .move d s => .move (d + off) (s + off)
  | .moveObject d s => .moveObject (d + off) (s + off)
  | .addInt d a b => .addInt (d + off) (a + off) (b + off)
  | .invokeStatic c args => .invokeStatic c (args.map (· + off))
  | .invokeDirect c args => .invokeDirect c (args.map (· + off))
  | .newInstance d => .newInstance (d + off)
  | .constString d => .constString (d + off)
  | .ifEqz s t => .ifEqz (s + off) t
  | .goto t => .goto t
  | .throwI s => .throwI (s + off)
  | .ret s => .ret (s + off)
  | .retVoid => .retVoid

/-- A callee's code: its parameter kinds (parameter `i` lives in callee
register `i`), its total register count (parameters plus locals), and its
body. -/
structure CalleeCode where
  params : List ParamKind
  regs : Nat
  body : List Instr
deriving Repr

/-- A caller's code: register count and instruction list. -/
structure CallerCode where
  regs : Nat
  code : List Instr
deriving Repr

/-- Modelled from the spec: argument binding of the CFG splicer (§4.4) —
"one move instruction is inserted per callee parameter, copying the call
site's argument value into the callee's renumbered parameter register,
preserving argument evaluation order as it appeared in the original
invoke", with the move opcode typed scalar vs object. -/
def paramMoves (off : Nat) : List ParamKind → List Nat → List Instr
  | [], _ => []
  | _, [] => []
  | p :: ps, a :: rest =>
    (match p with
     | ParamKind.scalar => Instr.move off a
     | ParamKind.object => Instr.moveObject off a) :: paramMoves (off + 1) ps rest

/-- Drop the callee's return instructions; after splicing, control falls
through to the instruction after the original call site (spec §4.4,
control flow). -/
def stripRet : List Instr → List Instr
  | [] => []
  | Instr.retVoid :: rest => stripRet rest
  | Instr.ret _ :: rest => stripRet rest
  | i :: rest => i :: stripRet rest

/-- Modelled from the spec: the structural splice of
`legacy_inliner::inline_method_unsafe` at a call site (§4.4) — the call
site instruction is replaced by the argument-binding moves followed by the
callee's body renumbered above the caller's register high-water mark, and
the caller's register count grows by the callee's register count. -/
def inline_method (caller : CallerCode) (callee : CalleeCode)
    (pre : List Instr) (args : List Nat) (post : List Instr) : CallerCode :=
  { regs := caller.regs + callee.regs
    code := pre ++ paramMoves caller.regs callee.params args
        ++ (stripRet callee.body).map (remapInstr caller.regs) ++ post }

theorem paramMoves_length (ps : List ParamKind) :
    ∀ (args : List Nat) (off : Nat), args.length = ps.length →
      (paramMoves off ps args).length = ps.length := by
  induction ps with
  | nil => intro args off _; cases args <;> simp [paramMoves]
  | cons p ps ih =>
    intro args off h
    cases args with
    | nil => simp at h
    | cons a rest =>
      simp [paramMoves]
      exact ih rest (off + 1) (by simpa using h)

theorem paramMoves_get (ps : List ParamKind) :
    ∀ (args : List Nat) (off i : Nat) (hi : i < ps.length)
      (ha : args.length = ps.length)
      (hlen : i < (paramMoves off ps args).length),
      (paramMoves off ps args).get ⟨i, hlen⟩ =
        (match ps.get ⟨i, hi⟩ with
         | ParamKind.scalar => Instr.move (off + i) (args.get ⟨i, ha ▸ hi⟩)
         | ParamKind.object => Instr.moveObject (off + i) (args.get ⟨i, ha ▸ hi⟩)) := by
  induction ps with
  | nil => intro args off i hi; simp at hi
  | cons p ps ih =>
    intro args off i hi ha hlen
    cases args with
    | nil => simp at ha
    | cons a rest =>
      cases i with
      | zero => cases p <;> simp [paramMoves]
      | succ j =>
        have ha' : rest.length = ps.length := by simpa using ha
        have hj : j < ps.length := by simpa using hi
        have hlen' : j < (paramMoves (off + 1) ps rest).length := by
          rw [paramMoves_length ps rest (off + 1) ha']; exact hj
        have key := ih rest (off + 1) j hj ha' hlen'
        have harith : off + 1 + j = off + (j + 1) := by omega
        rw [harith] at key
        cases p <;> exact key

/-- Claim C1: for every caller invoking a callee with N arguments, splicing
that call site inserts exactly one move instruction per callee parameter
(typed scalar vs object, in the argument order of the original invoke),
copying each argument into the callee's renumbered parameter register, and
the caller's register count afterwards increases by exactly the number of
fresh registers needed for callee locals and parameter bindings. -/
theorem inline_method_arg_binding (caller : CallerCode) (callee : CalleeCode)
    (pre post : List Instr) (args : List Nat) (cid : Nat)
    (hsplit : caller.code = pre ++ Instr.invokeStatic cid args :: post)
    (hlen : args.length = callee.params.length) :
    (inline_method caller callee pre args post).regs = caller.regs + callee.regs ∧
    ∃ moves : List Instr,
      (inline_method caller callee pre args post).code =
        pre ++ moves ++ (stripRet callee.body).map (remapInstr caller.regs) ++ post ∧
      moves.length = callee.params.length ∧
      ∀ i (hi : i < callee.params.length) (hargs : i < args.length)
        (hm : i < moves.length),
        moves.get ⟨i, hm⟩ =
          (match callee.params.get ⟨i, hi⟩ with
           | ParamKind.scalar => Instr.move (caller.regs + i) (args.get ⟨i, hargs⟩)
           | ParamKind.object =>
              Instr.moveObject (caller.regs + i) (args.get ⟨i, hargs⟩)) := by
  refine ⟨rfl, paramMoves caller.regs callee.params args, rfl,
    paramMoves_length callee.params args caller.regs hlen, ?_⟩
  intro i hi hargs hm
  exact paramMoves_get callee.params args caller.regs i hi hlen hm

/-- The caller of the `insertMoves` unit test: registers v0–v2, loading an
int into v1 and a null reference into v2 before invoking the callee. -/
def insertCaller : CallerCode :=
  { regs := 3
    code := [Instr.const 1 1, Instr.const 2 0,
             Instr.invokeStatic 0 [1, 2], Instr.retVoid] }

/-- The callee of the `insertMoves` unit test: parameters (int, object) in
registers v0, v1, and a body setting v1. -/
def insertCallee : CalleeCode :=
  { params := [ParamKind.scalar, ParamKind.object]
    regs := 2
    body := [Instr.const 1 1, Instr.retVoid] }

/-- Evaluation of the modelled splice on the `insertMoves` scenario,
matching the instruction sequence and register count the unit test
expects: two typed moves, the renumbered callee body, and 5 registers. -/
theorem insertMoves_eval :
    inline_method insertCaller insertCallee
        [Instr.const 1 1, Instr.const 2 0] [1, 2] [Instr.retVoid] =
      { regs := 5
        code := [Instr.const 1 1, Instr.const 2 0, Instr.move 3 1,
                 Instr.moveObject 4 2, Instr.const 4 1, Instr.retVoid] } := rfl

/-- Witness for C1 at the `insertMoves` scenario. -/
theorem inline_method_arg_binding_witness :
    (insertCaller.code =
      [Instr.const 1 1, Instr.const 2 0] ++
        Instr.invokeStatic 0 [1, 2] :: [Instr.retVoid]) ∧
    ([1, 2] : List Nat).length = insertCallee.params.length ∧
    ((inline_method insertCaller insertCallee
        [Instr.const 1 1, Instr.const 2 0] [1, 2] [Instr.retVoid]).regs =
          insertCaller.regs + insertCallee.regs ∧
      ∃ moves : List Instr,
        (inline_method insertCaller insertCallee
            [Instr.const 1 1, Instr.const 2 0] [1, 2] [Instr.retVoid]).code =
          [Instr.const 1 1, Instr.const 2 0] ++ moves ++
            (stripRet insertCallee.body).map (remapInstr insertCaller.regs) ++
            [Instr.retVoid] ∧
        moves.length = insertCallee.params.length ∧
        ∀ i (hi : i < insertCallee.params.length)
          (hargs : i < ([1, 2] : List Nat).length) (hm : i < moves.length),
          moves.get ⟨i, hm⟩ =
            (match insertCallee.params.get ⟨i, hi⟩ with
             | ParamKind.scalar =>
                Instr.move (insertCaller.regs + i)
                  (([1, 2] : List Nat).get ⟨i, hargs⟩)
             | ParamKind.object =>
                Instr.moveObject (insertCaller.regs + i)
                  (([1, 2] : List Nat).get ⟨i, hargs⟩))) :=
  ⟨rfl, rfl,
    inline_method_arg_binding insertCaller insertCallee
      [Instr.const 1 1, Instr.const 2 0] [Instr.retVoid] [1, 2] 0 rfl rfl⟩

/-- A debug position: its parent chain materialized as a list of
(method, line) frames, innermost first.  The last frame is the root of the
parent chain (spec §3, Debug Position). -/
structure DbgPos where
  frames : List (Nat × Nat)
deriving DecidableEq, Repr

/-- A method item: either a debug-position marker or an instruction,
mirroring `MFLOW_POSITION` / `MFLOW_OPCODE` entries of an `IRCode` list. -/
inductive MItem
  | pos (p : DbgPos)
  | insn (i : Instr)
deriving DecidableEq, Repr

/-- Re-parenting of a callee position during splicing: the caller's
position active at the call site becomes the parent of the callee
position's chain (spec §4.4, debug position stitching). -/
def reparent (p q : DbgPos) : DbgPos := ⟨p.frames ++ q.frames⟩

/-- The parent chain of `p` terminates at the position `q`. -/
def chainEndsAt (p q : DbgPos) : Prop := ∃ t, p.frames = t ++ q.frames

instance (p q : DbgPos) : Decidable (chainEndsAt p q) := by
  unfold chainEndsAt
  exact decidable_of_iff (p.frames.reverse.take q.frames.reverse.length
    = q.frames.reverse)
    ⟨fun h => ⟨(p.frames.reverse.drop q.frames.reverse.length).reverse, by
        have hp : p.frames.reverse =
            q.frames.reverse ++ p.frames.reverse.drop q.frames.reverse.length := by
          conv_lhs => rw [← List.take_append_drop q.frames.reverse.length
            p.frames.reverse]
          rw [h]
        have := congrArg List.reverse hp
        simpa using this⟩,
      fun h => by
        obtain ⟨t, ht⟩ := h
        rw [ht]
        simp [List.reverse_append, List.take_append_of_le_length]⟩

/-- Modelled from the spec: the splicer's rewrite of the callee's items —
positions are re-parented under the caller's active position, instructions
are renumbered (spec §4.4). -/
def spliceItems (off : Nat) (q : DbgPos) : List MItem → List MItem :=
  List.map fun it =>
    match it with
    | MItem.pos p => MItem.pos (reparent p q)
    | MItem.insn i => MItem.insn (remapInstr off i)

/-- Modelled from the spec: the splice of a callee (split at its return
into `beforeRet` and `afterRet`) into a caller at a call site whose
surrounding items are `pre` and `post`; a trailing position restoring the
caller's active position is inserted after the spliced return site
(spec §4.4, debug position stitching). -/
def inlinePositions (pre : List MItem) (callerPos : DbgPos) (off : Nat)
    (beforeRet afterRet : List MItem) (post : List MItem) : List MItem :=
  pre ++ spliceItems off callerPos beforeRet
      ++ [MItem.pos callerPos] ++ post ++ spliceItems off callerPos afterRet

/-- Pair every instruction of an item list with the debug position active
at it, threading the current position through the list. -/
def withPos (cur : Option DbgPos) : List MItem → List (Option DbgPos × Instr)
  | [] => []
  | MItem.pos p :: rest => withPos (some p) rest
  | MItem.insn i :: rest => (cur, i) :: withPos cur rest

/-- The position active after walking an item list starting from `cur`. -/
def lastPos (cur : Option DbgPos) : List MItem → Option DbgPos
  | [] => cur
  | MItem.pos p :: rest => lastPos (some p) rest
  | MItem.insn _ :: rest => lastPos cur rest

theorem withPos_append (xs : List MItem) :
    ∀ (cur : Option DbgPos) (ys : List MItem),
      withPos cur (xs ++ ys) = withPos cur xs ++ withPos (lastPos cur xs) ys := by
  induction xs with
  | nil => intro cur ys; simp [withPos, lastPos]
  | cons x rest ih =>
    intro cur ys
    cases x with
    | pos p => simp [withPos, lastPos, ih]
    | insn i => simp [withPos, lastPos, ih]

theorem lastPos_append (xs : List MItem) :
    ∀ (cur : Option DbgPos) (ys : List MItem),
      lastPos cur (xs ++ ys) = lastPos (lastPos cur xs) ys := by
  induction xs with
  | nil => intro cur ys; simp [lastPos]
  | cons x rest ih =>
    intro cur ys
    cases x with
    | pos p => simp [lastPos, ih]
    | insn i => simp [lastPos, ih]

theorem reparent_chainEndsAt (p q : DbgPos) : chainEndsAt (reparent p q) q :=
  ⟨p.frames, rfl⟩

/-- Every instruction in a spliced callee region runs under a position
whose parent chain ends at the caller's position, provided the position
active at the start of the region already does (which holds at the call
site, where the caller's own position is active). -/
theorem spliceItems_withPos_chain (off : Nat) (q : DbgPos)
    (items : List MItem) :
    ∀ (c : DbgPos), chainEndsAt c q →
      ∀ e ∈ withPos (some c) (spliceItems off q items),
        ∃ p, e.1 = some p ∧ chainEndsAt p q := by
  induction items with
  | nil => intro c _ e he; simp [spliceItems, withPos] at he
  | cons x rest ih =>
    intro c hc e he
    cases x with
    | pos p =>
      simp only [spliceItems, List.map_cons, withPos] at he
      exact ih (reparent p q) (reparent_chainEndsAt p q) e he
    | insn i =>
      simp only [spliceItems, List.map_cons, withPos, List.mem_cons] at he
      rcases he with he | he
      · exact ⟨c, by rw [he], hc⟩
      · exact ih c hc e he

/-- Claim C4: after splicing a callee into a caller, every instruction
originating from the callee body carries a debug position whose parent
chain terminates at the caller's position that was active at the call
site, and the first instruction after the spliced return executes under a
position equal to the caller's original position (a trailing restoring
position is inserted). -/
theorem inline_positions_debug_roundtrip
    (pre post post' beforeRet afterRet : List MItem) (callerPos : DbgPos)
    (off : Nat) (cur0 : Option DbgPos) (i0 : Instr)
    (hactive : lastPos cur0 pre = some callerPos)
    (hpost : post = MItem.insn i0 :: post') :
    (∀ e ∈ withPos (some callerPos) (spliceItems off callerPos beforeRet),
       ∃ p, e.1 = some p ∧ chainEndsAt p callerPos) ∧
    (∀ c, chainEndsAt c callerPos →
      ∀ e ∈ withPos (some c) (spliceItems off callerPos afterRet),
        ∃ p, e.1 = some p ∧ chainEndsAt p callerPos) ∧
    withPos cur0 (inlinePositions pre callerPos off beforeRet afterRet post) =
      withPos cur0 pre
        ++ withPos (some callerPos) (spliceItems off callerPos beforeRet)
        ++ (some callerPos, i0) :: withPos (some callerPos) post'
        ++ withPos (lastPos (some callerPos) post)
             (spliceItems off callerPos afterRet) := by
  refine ⟨?_, ?_, ?_⟩
  · exact spliceItems_withPos_chain off callerPos beforeRet callerPos ⟨[], rfl⟩
  · intro c hc
    exact spliceItems_withPos_chain off callerPos afterRet c hc
  · subst hpost
    unfold inlinePositions
    simp only [List.append_assoc]
    rw [withPos_append pre, hactive,
      withPos_append (spliceItems off callerPos beforeRet)]
    simp [withPos, lastPos, withPos_append]

/-- The caller items of the `debugPositionsAfterReturn` unit test:
position (caller, line 10), then a constant load; the invoke follows. -/
def dbgPre : List MItem :=
  [MItem.pos ⟨[(0, 10)]⟩, MItem.insn (Instr.const 0 0)]

/-- The callee items before its return in the `debugPositionsAfterReturn`
unit test. -/
def dbgBeforeRet : List MItem :=
  [MItem.pos ⟨[(1, 123)]⟩, MItem.insn (Instr.const 0 1),
   MItem.insn (Instr.ifEqz 0 0), MItem.pos ⟨[(1, 124)]⟩,
   MItem.insn (Instr.const 1 2)]

/-- The callee items after its return (the `:after` block), with the
position active there re-established at the front. -/
def dbgAfterRet : List MItem :=
  [MItem.pos ⟨[(1, 124)]⟩, MItem.insn (Instr.const 2 3),
   MItem.insn (Instr.goto 1)]

/-- Evaluation of the modelled splice on the `debugPositionsAfterReturn`
scenario, matching the item sequence the unit test expects: callee
positions re-parented under the caller's dbg_0, the restoring caller
position before the trailing return, and the re-established callee
position for the code after the callee's return. -/
theorem debugPositionsAfterReturn_eval :
    inlinePositions dbgPre ⟨[(0, 10)]⟩ 1 dbgBeforeRet dbgAfterRet
        [MItem.insn Instr.retVoid] =
      [MItem.pos ⟨[(0, 10)]⟩, MItem.insn (Instr.const 0 0),
       MItem.pos ⟨[(1, 123), (0, 10)]⟩, MItem.insn (Instr.const 1 1),
       MItem.insn (Instr.ifEqz 1 0), MItem.pos ⟨[(1, 124), (0, 10)]⟩,
       MItem.insn (Instr.const 2 2),
       MItem.pos ⟨[(0, 10)]⟩, MItem.insn Instr.retVoid,
       MItem.pos ⟨[(1, 124), (0, 10)]⟩, MItem.insn (Instr.const 3 3),
       MItem.insn (Instr.goto 1)] := rfl

/-- Witness for C4 at the `debugPositionsAfterReturn` scenario. -/
theorem inline_positions_debug_roundtrip_witness :
    (lastPos none dbgPre = some ⟨[(0, 10)]⟩) ∧
    (([MItem.insn Instr.retVoid] : List MItem) =
      MItem.insn Instr.retVoid :: []) ∧
    ((∀ e ∈ withPos (some ⟨[(0, 10)]⟩)
        (spliceItems 1 ⟨[(0, 10)]⟩ dbgBeforeRet),
        ∃ p, e.1 = some p ∧ chainEndsAt p ⟨[(0, 10)]⟩) ∧
      (∀ c, chainEndsAt c ⟨[(0, 10)]⟩ →
        ∀ e ∈ withPos (some c) (spliceItems 1 ⟨[(0, 10)]⟩ dbgAfterRet),
          ∃ p, e.1 = some p ∧ chainEndsAt p ⟨[(0, 10)]⟩) ∧
      withPos none
          (inlinePositions dbgPre ⟨[(0, 10)]⟩ 1 dbgBeforeRet dbgAfterRet
            [MItem.insn Instr.retVoid]) =
        withPos none dbgPre
          ++ withPos (some ⟨[(0, 10)]⟩)
              (spliceItems 1 ⟨[(0, 10)]⟩ dbgBeforeRet)
          ++ (some ⟨[(0, 10)]⟩, Instr.retVoid) ::
              withPos (some ⟨[(0, 10)]⟩) []
          ++ withPos (lastPos (some ⟨[(0, 10)]⟩) [MItem.insn Instr.retVoid])
              (spliceItems 1 ⟨[(0, 10)]⟩ dbgAfterRet)) :=
  ⟨rfl, rfl,
    inline_positions_debug_roundtrip dbgPre [MItem.insn Instr.retVoid] []
      dbgBeforeRet dbgAfterRet ⟨[(0, 10)]⟩ 1 none Instr.retVoid rfl rfl⟩

/-- Modelled from the spec: the recognized inliner configuration options
(spec §6). -/
structure InlinerConfig where
  hard_max_instruction_size : Nat
  throws_inline : Bool
  multiple_callers : Bool
  unique_inlined_registers : Bool
deriving Repr

/-- The per-method facts the legality checker consults: instruction count,
presence of a body, and the shape of the method's try regions (spec §3,
§4.2). -/
structure MethodInfo where
  id : Nat
  size : Nat
  hasCode : Bool
  hasTryNoCatchAll : Bool
  hasTry : Bool
deriving DecidableEq, Repr

/-- A call site: the caller and callee method identities plus the facts
about the try region enclosing the site on the caller side (spec §3,
Call Site). -/
structure CallSite where
  caller : Nat
  callee : Nat
  siteInTryNoCatchAll : Bool
  siteInTry : Bool
  compatibleCoverage : Bool
deriving DecidableEq, Repr

/-- Modelled from the spec: the legality checker (§4.2), a pure predicate
over (caller, callee, call site).  Denies when the callee has no body;
when caller and callee are identical (pure infinite self-inline with no
progress guarantee); when the callee contains a try region without a
catch-all and the call site sits inside a try region without a catch-all;
when the callee has any try region and the site is inside an unrelated try
region lacking compatible coverage; or when inlining would push the
caller's instruction count beyond the configured hard cap. -/
def legal (cfg : InlinerConfig) (callerM calleeM : MethodInfo)
    (s : CallSite) : Bool :=
  calleeM.hasCode
    && decide (s.caller ≠ s.callee)
    && !(calleeM.hasTryNoCatchAll && s.siteInTryNoCatchAll)
    && !(calleeM.hasTry && s.siteInTry && !s.compatibleCoverage)
    && decide (callerM.size + calleeM.size ≤ cfg.hard_max_instruction_size)

/-- Look a method up by identity in the candidate environment. -/
def findMethod (env : List MethodInfo) (i : Nat) : Option MethodInfo :=
  env.find? (fun m => m.id == i)

/-- A call site is accepted when both endpoints resolve and the legality
checker allows the splice (spec §4.2–§4.3; denial silently skips the
site). -/
def siteAccepted (cfg : InlinerConfig) (env : List MethodInfo)
    (s : CallSite) : Bool :=
  match findMethod env s.caller, findMethod env s.callee with
  | some cm, some ce => legal cfg cm ce s
  | _, _ => false

/-- Modelled from the spec: the inline plan of one `inline_methods` run —
the accepted subset of the call sites found in the original bodies;
splicing never adds plan entries for the copies it creates (spec §3,
Inline Plan; §4.1, one-step unrolling). -/
def inline_plan (cfg : InlinerConfig) (env : List MethodInfo)
    (sites : List CallSite) : List CallSite :=
  sites.filter (siteAccepted cfg env)

/-- Modelled from the spec: `get_inlined` — the identities of the methods
actually spliced somewhere (spec §6). -/
def get_inlined (cfg : InlinerConfig) (env : List MethodInfo)
    (sites : List CallSite) : List Nat :=
  ((inline_plan cfg env sites).map (fun s => s.callee)).dedup

/-- Number of plan entries splicing callee `c` into caller `m`. -/
def spliceCount (c m : Nat) (l : List CallSite) : Nat :=
  (l.filter (fun s => s.callee == c && s.caller == m)).length

/-- Claim C2: a callee containing a try region without a catch-all handler
is never inlined at a call site itself nested inside a try region lacking
a catch-all on the caller side, and a callee with any try region is never
inlined into a call site inside an unrelated try region without compatible
coverage; such call sites are rejected, so a callee all of whose sites are
of these shapes does not appear in `get_inlined`. -/
theorem sketchy_sites_rejected (cfg : InlinerConfig) (env : List MethodInfo)
    (sites : List CallSite) (c : Nat) (ce : MethodInfo)
    (hce : findMethod env c = some ce)
    (hall : ∀ s ∈ sites, s.callee = c →
      (ce.hasTryNoCatchAll = true ∧ s.siteInTryNoCatchAll = true) ∨
      (ce.hasTry = true ∧ s.siteInTry = true ∧ s.compatibleCoverage = false)) :
    c ∉ get_inlined cfg env sites := by
  intro hmem
  unfold get_inlined inline_plan at hmem
  rw [List.mem_dedup] at hmem
  rcases List.mem_map.mp hmem with ⟨s, hs, hsc⟩
  rcases List.mem_filter.mp hs with ⟨hsites, hacc⟩
  rcases hall s hsites hsc with ⟨h1, h2⟩ | ⟨h1, h2, h3⟩
  · unfold siteAccepted at hacc
    rw [hsc, hce] at hacc
    cases hfm : findMethod env s.caller with
    | none => rw [hfm] at hacc; exact Bool.noConfusion hacc
    | some cm =>
      rw [hfm] at hacc
      unfold legal at hacc
      simp [h1, h2] at hacc
  · unfold siteAccepted at hacc
    rw [hsc, hce] at hacc
    cases hfm : findMethod env s.caller with
    | none => rw [hfm] at hacc; exact Bool.noConfusion hacc
    | some cm =>
      rw [hfm] at hacc
      unfold legal at hacc
      simp [h1, h2, h3] at hacc

/-- Environment of the
`dont_inline_callee_with_tries_and_no_catch_all_at_sketchy_call_site`
unit test: caller 0 (`LFoo;.sketchyCaller`), callee 1 (`LFoo;.callee`,
which has a try region whose only handler catches a specific type, hence
no catch-all). -/
def sketchyEnv1 : List MethodInfo :=
  [{ id := 0, size := 6, hasCode := true,
     hasTryNoCatchAll := false, hasTry := true },
   { id := 1, size := 3, hasCode := true,
     hasTryNoCatchAll := true, hasTry := true }]

/-- The single call site of that test: the invoke of callee 1 sits in a
region of caller 0 not covered by a catch-all. -/
def sketchySites1 : List CallSite :=
  [{ caller := 0, callee := 1, siteInTryNoCatchAll := true,
     siteInTry := true, compatibleCoverage := false }]

/-- Environment of the `dont_inline_sketchy_callee_into_into_try` unit
test: caller 0 (`LFoo;.caller`, whose try catches only `LWhatEver;`),
callee 1 (`LFoo;.sketchy_callee`, which contains a try region). -/
def sketchyEnv2 : List MethodInfo :=
  [{ id := 0, size := 3, hasCode := true,
     hasTryNoCatchAll := true, hasTry := true },
   { id := 1, size := 6, hasCode := true,
     hasTryNoCatchAll := false, hasTry := true }]

/-- The single call site of that test: the invoke of callee 1 sits inside
caller 0's try region, whose specific-type handler gives no compatible
coverage for the callee's try region. -/
def sketchySites2 : List CallSite :=
  [{ caller := 0, callee := 1, siteInTryNoCatchAll := true,
     siteInTry := true, compatibleCoverage := false }]

/-- The default configuration the exception-safety tests run under. -/
def sketchyCfg : InlinerConfig :=
  { hard_max_instruction_size := 10000, throws_inline := false,
    multiple_callers := false, unique_inlined_registers := true }

/-- Witness for C2: both exception-safety unit-test scenarios reject their
only call site, so `get_inlined` is empty. -/
theorem sketchy_sites_rejected_witness :
    (findMethod sketchyEnv1 1 =
      some { id := 1, size := 3, hasCode := true,
             hasTryNoCatchAll := true, hasTry := true }) ∧
    (∀ s ∈ sketchySites1, s.callee = 1 →
      ((true : Bool) = true ∧ s.siteInTryNoCatchAll = true) ∨
      ((true : Bool) = true ∧ s.siteInTry = true ∧
        s.compatibleCoverage = false)) ∧
    (1 : Nat) ∉ get_inlined sketchyCfg sketchyEnv1 sketchySites1 ∧
    get_inlined sketchyCfg sketchyEnv1 sketchySites1 = [] ∧
    get_inlined sketchyCfg sketchyEnv2 sketchySites2 = [] :=
  ⟨rfl, by decide,
    sketchy_sites_rejected sketchyCfg sketchyEnv1 sketchySites1 1
      { id := 1, size := 3, hasCode := true,
        hasTryNoCatchAll := true, hasTry := true } rfl (by decide),
    by decide, by decide⟩

/-- Claim C3: with the hard size budget configured to zero, no call site
is ever accepted regardless of estimated benefit, so `get_inlined` returns
the empty set (every method body has at least one instruction, so any
splice would push the caller past the zero cap). -/
theorem zero_hard_budget_inlines_nothing (cfg : InlinerConfig)
    (env : List MethodInfo) (sites : List CallSite)
    (hhard : cfg.hard_max_instruction_size = 0)
    (hsize : ∀ m ∈ env, 1 ≤ m.size) :
    get_inlined cfg env sites = [] := by
  unfold get_inlined inline_plan
  have hrej : ∀ s ∈ sites, siteAccepted cfg env s = false := by
    intro s _
    unfold siteAccepted
    cases hcm : findMethod env s.caller with
    | none => rfl
    | some cm =>
      cases hcee : findMethod env s.callee with
      | none => rfl
      | some ce =>
        have hcm' : cm ∈ env := List.mem_of_find?_eq_some hcm
        have hce' : ce ∈ env := List.mem_of_find?_eq_some hcee
        have h1 := hsize cm hcm'
        have h2 := hsize ce hce'
        unfold legal
        have : ¬(cm.size + ce.size ≤ cfg.hard_max_instruction_size) := by
          rw [hhard]; omega
        simp [this]
  rw [List.filter_eq_nil_iff.mpr (fun s hs => by rw [hrej s hs]; exact
    Bool.false_ne_true)]
  rfl

/-- Environment of the `size_limit` unit test: the three tiny candidate
methods and the two callers, each with a nonempty body. -/
def sizeEnv : List MethodInfo :=
  [{ id := 0, size := 2, hasCode := true,
     hasTryNoCatchAll := false, hasTry := false },
   { id := 1, size := 2, hasCode := true,
     hasTryNoCatchAll := false, hasTry := false },
   { id := 2, size := 2, hasCode := true,
     hasTryNoCatchAll := false, hasTry := false },
   { id := 3, size := 4, hasCode := true,
     hasTryNoCatchAll := false, hasTry := false },
   { id := 4, size := 3, hasCode := true,
     hasTryNoCatchAll := false, hasTry := false }]

/-- The call sites of the `size_limit` unit test: foo_main (3) calls
foo_m1 (0) and bar_m2 (2); bar_main (4) calls bar_m1 (1). -/
def sizeSites : List CallSite :=
  [{ caller := 3, callee := 0, siteInTryNoCatchAll := false,
     siteInTry := false, compatibleCoverage := true },
   { caller := 3, callee := 2, siteInTryNoCatchAll := false,
     siteInTry := false, compatibleCoverage := true },
   { caller := 4, callee := 1, siteInTryNoCatchAll := false,
     siteInTry := false, compatibleCoverage := true }]

/-- The `size_limit` configuration: the size budget is zero. -/
def sizeCfg : InlinerConfig :=
  { hard_max_instruction_size := 0, throws_inline := false,
    multiple_callers := false, unique_inlined_registers := true }

/-- Witness for C3 at the `size_limit` scenario. -/
theorem zero_hard_budget_inlines_nothing_witness :
    (sizeCfg.hard_max_instruction_size = 0) ∧
    (∀ m ∈ sizeEnv, 1 ≤ m.size) ∧
    get_inlined sizeCfg sizeEnv sizeSites = [] :=
  ⟨rfl, by decide,
    zero_hard_budget_inlines_nothing sizeCfg sizeEnv sizeSites rfl (by decide)⟩

theorem spliceCount_filter_le (c m : Nat) (p : CallSite → Bool)
    (l : List CallSite) :
    spliceCount c m (l.filter p) ≤ spliceCount c m l := by
  induction l with
  | nil => simp [spliceCount]
  | cons s rest ih =>
    by_cases hp : p s = true <;>
      by_cases hq : (s.callee == c && s.caller == m) = true <;>
      simp [spliceCount, List.filter_cons, hp, hq] at ih ⊢ <;> omega

/-- Environment of the `minimal_self_loop_regression` unit test: foo_main
(0) and the loopy method foo_m1 (1), whose body is a single goto to
itself. -/
def loopyEnv : List MethodInfo :=
  [{ id := 0, size := 2, hasCode := true,
     hasTryNoCatchAll := false, hasTry := false },
   { id := 1, size := 1, hasCode := true,
     hasTryNoCatchAll := false, hasTry := false }]

/-- The single original call site of that test: foo_main calls foo_m1
once.  The loopy body itself contains no call site, only a goto. -/
def loopySites : List CallSite :=
  [{ caller := 0, callee := 1, siteInTryNoCatchAll := false,
     siteInTry := false, compatibleCoverage := true }]

/-- The default configuration the self-loop regression test runs under. -/
def loopyCfg : InlinerConfig :=
  { hard_max_instruction_size := 10000, throws_inline := false,
    multiple_callers := false, unique_inlined_registers := true }

/-- Claim C7: a run of `inline_methods` terminates on a candidate whose
body is an infinite self-loop (the plan is a total function of the
original call sites): a call site whose caller and callee coincide is
always rejected, so a self-loop is never inlined a second time into the
already-inlined copy within the same plan; the number of splices of a
callee into any caller never exceeds the number of original call sites;
and in the `minimal_self_loop_regression` scenario the loopy method is
inlined exactly once into its caller. -/
theorem self_loop_one_unroll (cfg : InlinerConfig) (env : List MethodInfo)
    (sites : List CallSite) (c m : Nat) :
    (∀ s : CallSite, s.caller = s.callee →
      siteAccepted cfg env s = false) ∧
    spliceCount c m (inline_plan cfg env sites) ≤ spliceCount c m sites ∧
    get_inlined loopyCfg loopyEnv loopySites = [1] ∧
    spliceCount 1 0 (inline_plan loopyCfg loopyEnv loopySites) = 1 := by
  refine ⟨?_, spliceCount_filter_le c m _ sites, by decide, by decide⟩
  intro s hself
  unfold siteAccepted
  cases hcm : findMethod env s.caller with
  | none => rfl
  | some cm =>
    cases hce : findMethod env s.callee with
    | none => rfl
    | some ce =>
      unfold legal
      simp [hself]

/-- Witness for C7: the theorem applied at the self-loop scenario, with
the inner rejection instantiated at a concrete self-recursive site (the
call the loopy copy would contain if the plan revisited it). -/
theorem self_loop_one_unroll_witness :
    siteAccepted loopyCfg loopyEnv
        { caller := 1, callee := 1, siteInTryNoCatchAll := false,
          siteInTry := false, compatibleCoverage := true } = false ∧
    get_inlined loopyCfg loopyEnv loopySites = [1] :=
  ⟨(self_loop_one_unroll loopyCfg loopyEnv loopySites 1 0).1
      { caller := 1, callee := 1, siteInTryNoCatchAll := false,
        siteInTry := false, compatibleCoverage := true } rfl,
    (self_loop_one_unroll loopyCfg loopyEnv loopySites 1 0).2.2.1⟩

/-- The register an instruction defines, if any. -/
def writesReg : Instr → Option Nat
  | .const d _ => some d
  | .move d _ => some d
  | .moveObject d _ => some d
  | .addInt d _ _ => some d
  | .newInstance d => some d
  | .constString d => some d
  | _ => none

/-- The registers an instruction reads. -/
def readsRegs : Instr → List Nat
  | .move _ s => [s]
  | .moveObject _ s => [s]
  | .addInt _ a b => [a, b]
  | .invokeStatic _ args => args
  | .invokeDirect _ args => args
  | .ifEqz s _ => [s]
  | .throwI s => [s]
  | .ret s => [s]
  | _ => []

/-- Whether an instruction has an effect beyond its destination register
(calls, allocation, control flow, returns, throws); such instructions are
never removed by local dead-code elimination. -/
def hasSideEffect : Instr → Bool
  | .invokeStatic _ _ => true
  | .invokeDirect _ _ => true
  | .newInstance _ => true
  | .constString _ => true
  | .ifEqz _ _ => true
  | .goto _ => true
  | .throwI _ => true
  | .ret _ => true
  | .retVoid => true
  | _ => false

/-- Modelled from the spec: local dead-code elimination over a reversed
instruction list (the shrinker's `run_local_dce` transform, §4.5): an
effect-free instruction whose destination is not live below it is
removed; liveness flows backwards through reads and writes. -/
def dceRev : List Instr → List Nat → List Instr
  | [], _ => []
  | i :: rest, live =>
    if hasSideEffect i ||
        (match writesReg i with
         | some d => live.contains d
         | none => true) then
      i :: dceRev rest
        ((match writesReg i with
          | some d => live.filter (fun r => r ≠ d)
          | none => live) ++ readsRegs i)
    else
      dceRev rest live

/-- Local dead-code elimination on a method body. -/
def localDce (code : List Instr) : List Instr :=
  (dceRev code.reverse []).reverse

/-- Modelled from the spec: return binding of the CFG splicer (§4.4) —
the spliced call-site replacement: argument-binding moves, the renumbered
callee body, and, only when the call site's result is consumed, a move of
the callee's (renumbered) return register into the call site's result
register.  When the result is unused no binding instruction is emitted. -/
def spliceCall (off : Nat) (callee : CalleeCode) (retReg : Nat)
    (args : List Nat) (resultDst : Option Nat) : List Instr :=
  paramMoves off callee.params args
    ++ (stripRet callee.body).map (remapInstr off)
    ++ (match resultDst with
        | some d => [Instr.move d (retReg + off)]
        | none => [])

/-- Modelled from the spec: splicing every call to the candidate callee in
a caller body whose results are all unused, renumbering each copy above
the running high-water mark. -/
def inlineCallsUnused (calleeId : Nat) (callee : CalleeCode) (retReg : Nat) :
    List Instr → Nat → List Instr
  | [], _ => []
  | Instr.invokeStatic c args :: rest, hw =>
    if c == calleeId then
      spliceCall hw callee retReg args none
        ++ inlineCallsUnused calleeId callee retReg rest (hw + callee.regs)
    else
      Instr.invokeStatic c args ::
        inlineCallsUnused calleeId callee retReg rest hw
  | i :: rest, hw => i :: inlineCallsUnused calleeId callee retReg rest hw

/-- The pure callee of the `unused_result` unit test: one int parameter in
v0, ten add-int instructions, returning v0. -/
def unusedCallee : CalleeCode :=
  { params := [ParamKind.scalar]
    regs := 1
    body := [Instr.addInt 0 0 0, Instr.addInt 0 0 0, Instr.addInt 0 0 0,
             Instr.addInt 0 0 0, Instr.addInt 0 0 0, Instr.addInt 0 0 0,
             Instr.addInt 0 0 0, Instr.addInt 0 0 0, Instr.addInt 0 0 0,
             Instr.addInt 0 0 0, Instr.ret 0] }

/-- The caller of the `unused_result` unit test: a constant and ten calls
to the callee, every result discarded. -/
def unusedCaller : List Instr :=
  [Instr.const 0 0,
   Instr.invokeStatic 5 [0], Instr.invokeStatic 5 [0],
   Instr.invokeStatic 5 [0], Instr.invokeStatic 5 [0],
   Instr.invokeStatic 5 [0], Instr.invokeStatic 5 [0],
   Instr.invokeStatic 5 [0], Instr.invokeStatic 5 [0],
   Instr.invokeStatic 5 [0], Instr.invokeStatic 5 [0],
   Instr.retVoid]

/-- Claim C5: if a call site's result is never read, splicing emits no
return-binding move (and the binding move is exactly the difference with a
consumed-result splice); and for the `unused_result` scenario — a caller
invoking the pure callee ten times in sequence discarding every result —
post-inline local dead-code elimination reduces the caller to an empty
body, a bare return. -/
theorem unused_result_elimination :
    (∀ (off : Nat) (callee : CalleeCode) (retReg : Nat) (args : List Nat),
      spliceCall off callee retReg args none =
        paramMoves off callee.params args
          ++ (stripRet callee.body).map (remapInstr off) ∧
      ∀ d, spliceCall off callee retReg args (some d) =
        spliceCall off callee retReg args none
          ++ [Instr.move d (retReg + off)]) ∧
    localDce (inlineCallsUnused 5 unusedCallee 0 unusedCaller 1) =
      [Instr.retVoid] := by
  refine ⟨?_, by decide⟩
  intro off callee retReg args
  constructor
  · simp [spliceCall]
  · intro d
    simp [spliceCall]

/-- The throwing path of the precondition callee
(`make_precondition_method`): allocate a RuntimeException, load its
message, call its constructor (method 9), and throw. -/
def throwSeq : List Instr :=
  [Instr.newInstance 1, Instr.constString 2,
   Instr.invokeDirect 9 [1, 2], Instr.throwI 1]

/-- A callee abstracted to its entry branch: the branch register, the path
taken when the register is zero (`if-eqz`), and the fall-through path. -/
structure BranchBody where
  condReg : Nat
  zeroPath : List Instr
  nonzeroPath : List Instr
deriving Repr

/-- Modelled from the spec: constant propagation resolving the callee's
entry branch once the branch register holds a known constant (the
simulation-based estimate of §4.3: the callee body is tentatively applied
with the call site's known-constant argument substituted and the local
simplification collaborators run on the speculative copy). -/
def resolveBranch (b : BranchBody) (c : Int) : List Instr :=
  if c = 0 then b.zeroPath else b.nonzeroPath

/-- The precondition callee of the unit tests: `if (x == 0) throw; else
return` — after return stripping, the nonzero path is empty. -/
def checkCallee : BranchBody :=
  { condReg := 0, zeroPath := throwSeq, nonzeroPath := [] }

/-- The speculative, shrunk copy of the precondition callee at a call
site whose argument is the constant `c`. -/
def simulateCheck (c : Int) : List Instr := resolveBranch checkCallee c

/-- Whether a (shrunk) instruction sequence ends in a throw, i.e. the
call provably throws. -/
def endsInThrow : List Instr → Bool
  | [] => false
  | [Instr.throwI _] => true
  | _ :: rest => endsInThrow rest

/-- The call-site instructions for one call of the precondition method
with constant argument `c`: load the constant, invoke. -/
def callSeq (checkId : Nat) (c : Int) : List Instr :=
  [Instr.const 0 c, Instr.invokeStatic checkId [0]]

/-- Modelled from the spec: a call site is accepted when the
simulated-and-shrunk size is smaller than not inlining (§4.3, tie-break:
the simulated estimate wins). -/
def siteBeneficial (checkId : Nat) (c : Int) : Bool :=
  (simulateCheck c).length < (callSeq checkId c).length

/-- Modelled from the spec: inlining the precondition callee at each
constant-argument call site of the caller when beneficial, then shrinking
— a retained call that provably throws makes the code after it
unreachable, and it is removed (§8, constant-driven branch elimination). -/
def inlineShrinkCalls (checkId : Nat) : List Int → List Instr
  | [] => [Instr.retVoid]
  | c :: rest =>
    if siteBeneficial checkId c then
      simulateCheck c ++ inlineShrinkCalls checkId rest
    else
      callSeq checkId c ++
        (if endsInThrow (simulateCheck c) then []
         else inlineShrinkCalls checkId rest)

/-- Claim C6: for the precondition callee (throws unless its single int
parameter is nonzero), a caller passing a nonzero constant at each of a
run of call sites and then zero has all the safe calls collapsed to
nothing, only the provably-throwing call retained, and the code after the
throwing call removed as unreachable. -/
theorem constant_driven_branch_elimination (checkId : Nat)
    (ns rest : List Int) (hns : ∀ n ∈ ns, n ≠ 0) :
    inlineShrinkCalls checkId (ns ++ 0 :: rest) = callSeq checkId 0 ∧
    (∀ c : Int, c ≠ 0 → simulateCheck c = []) ∧
    endsInThrow (simulateCheck 0) = true := by
  refine ⟨?_, fun c hc => by simp [simulateCheck, resolveBranch, checkCallee, hc], rfl⟩
  induction ns with
  | nil => rfl
  | cons n ns ih =>
    have hn : n ≠ 0 := hns n (List.mem_cons_self n ns)
    have hsim : simulateCheck n = [] := by
      simp [simulateCheck, resolveBranch, checkCallee, hn]
    have hben : siteBeneficial checkId n = true := by
      simp [siteBeneficial, hsim, callSeq]
    simp only [List.cons_append, inlineShrinkCalls, hben, if_true, hsim,
      List.nil_append]
    exact ih (fun x hx => hns x (List.mem_cons_of_mem n hx))

/-- The call-argument sequence of the claimed scenario: six calls, five
passing a nonzero constant, one passing zero. -/
def sixCalls : List Int := [1, 1, 1, 1, 1, 0]

/-- Evaluation of the modelled transform on the six-call scenario: the
five safe calls collapse to nothing and only the provably-throwing call
remains, with the trailing code removed. -/
theorem constant_driven_six_calls_eval :
    inlineShrinkCalls 7 sixCalls =
      [Instr.const 0 0, Instr.invokeStatic 7 [0]] := rfl

/-- Witness for C6 at the six-call scenario. -/
theorem constant_driven_branch_elimination_witness :
    (∀ n ∈ ([1, 1, 1, 1, 1] : List Int), n ≠ 0) ∧
    (inlineShrinkCalls 7 ([1, 1, 1, 1, 1] ++ 0 :: []) = callSeq 7 0 ∧
      (∀ c : Int, c ≠ 0 → simulateCheck c = []) ∧
      endsInThrow (simulateCheck 0) = true) :=
  ⟨by decide,
    constant_driven_branch_elimination 7 [1, 1, 1, 1, 1] [] (by decide)⟩

/-- Modelled from the spec: the splice offset policy (§4.4, register
renumbering): fresh slots above the running high-water mark when
unique-register allocation is enabled, a reused range starting at the
caller's original register count otherwise. -/
def spliceOffset (unique : Bool) (callerRegs highWater : Nat) : Nat :=
  if unique then highWater else callerRegs

/-- Modelled from the spec: splicing a sequence of callee bodies (each
given with its register count) into one caller, threading the register
high-water mark; returns the concatenated spliced code and the final
high-water mark (the caller's total register demand). -/
def inlineBodies (unique : Bool) (callerRegs : Nat) :
    List (List Instr × Nat) → Nat → List Instr × Nat
  | [], hw => ([], hw)
  | (body, r) :: rest, hw =>
    let off := spliceOffset unique callerRegs hw
    let res := inlineBodies unique callerRegs rest (max hw (off + r))
    (body.map (remapInstr off) ++ res.1, res.2)

/-- With unique-register allocation disabled, every callee is renumbered
by the same offset (the caller's original register count), so equal callee
registers land on equal caller registers. -/
theorem inlineBodies_reuse (callerRegs : Nat) :
    ∀ (callees : List (List Instr × Nat)) (hw : Nat),
      (inlineBodies false callerRegs callees hw).1 =
        (callees.map (fun p => p.1.map (remapInstr callerRegs))).flatten := by
  intro callees
  induction callees with
  | nil => intro hw; rfl
  | cons p rest ih =>
    intro hw
    cases p with
    | mk body r =>
      simp only [inlineBodies, spliceOffset, if_neg (Bool.false_ne_true),
        List.map_cons, List.flatten_cons]
      rw [ih]

/-- Claim C8: when `unique_inlined_registers` is false, callee-local
registers are remapped onto a reused register range instead of fresh slots
above the caller's high-water mark: every spliced callee is renumbered by
the same offset, so inlining two callees that each use one local into the
same caller leaves both inlined bodies using the same caller register
(the `non_unique_inlined_registers` scenario: both bodies end up in v0 and
one register suffices). -/
theorem non_unique_registers_reuse :
    (∀ (callerRegs : Nat) (callees : List (List Instr × Nat)) (hw : Nat),
      (inlineBodies false callerRegs callees hw).1 =
        (callees.map (fun p => p.1.map (remapInstr callerRegs))).flatten) ∧
    (inlineBodies false 0
        [([Instr.const 0 1], 1), ([Instr.const 0 2], 1)] 0).1
      ++ [Instr.retVoid] =
      [Instr.const 0 1, Instr.const 0 2, Instr.retVoid] ∧
    (inlineBodies false 0
        [([Instr.const 0 1], 1), ([Instr.const 0 2], 1)] 0).2 = 1 :=
  ⟨fun callerRegs callees hw => inlineBodies_reuse callerRegs callees hw,
    rfl, rfl⟩

/-- Modelled from the spec: one frontier worker's unit of work (§4.6, §5):
apply the per-caller transform to caller `c`, install the new body for `c`
only (mutation exclusivity — no other method is touched), and merge the
transform's statistics into the aggregate under exclusive access. -/
def stepCaller {M : Type} (t : Nat → M → M × Nat) (st : (Nat → M) × Nat)
    (c : Nat) : (Nat → M) × Nat :=
  ((fun x => if x = c then (t c (st.1 c)).1 else st.1 x),
    st.2 + (t c (st.1 c)).2)

/-- Modelled from the spec: processing one frontier of the call graph in
some serialization order of its workers (§5). -/
def runFrontier {M : Type} (t : Nat → M → M × Nat) (st : (Nat → M) × Nat)
    (l : List Nat) : (Nat → M) × Nat :=
  l.foldl (stepCaller t) st

theorem stepCaller_comm {M : Type} (t : Nat → M → M × Nat)
    (st : (Nat → M) × Nat) (x y : Nat) :
    stepCaller t (stepCaller t st x) y = stepCaller t (stepCaller t st y) x := by
  by_cases hxy : x = y
  · subst hxy; rfl
  · have hyx : ¬(y = x) := fun h => hxy h.symm
    unfold stepCaller
    simp only [if_neg hyx, if_neg hxy]
    refine Prod.ext ?_ ?_
    · funext z
      by_cases hzx : z = x <;> by_cases hzy : z = y <;>
        simp [hzx, hzy, hxy, hyx]
    · simp only
      omega

/-- Claim C9: for every frontier of the call graph, processing its callers
in any two orders yields the same final method bodies and the same
aggregated statistics — the outcome is independent of within-frontier
processing order, with the shared statistics aggregate merged under
exclusive (serialized) access. -/
theorem frontier_order_independent {M : Type} (t : Nat → M → M × Nat)
    (st : (Nat → M) × Nat) (l l' : List Nat) (h : l.Perm l') :
    runFrontier t st l = runFrontier t st l' := by
  unfold runFrontier
  exact h.foldl_eq' (fun x _ y _ z => stepCaller_comm t z x y) st

/-- Witness for C9: a two-caller frontier processed in both orders. -/
theorem frontier_order_independent_witness :
    ([1, 2] : List Nat).Perm [2, 1] ∧
    runFrontier (fun c m => (m + c, c)) (fun _ => (0 : Nat), 0) [1, 2] =
      runFrontier (fun c m => (m + c, c)) (fun _ => (0 : Nat), 0) [2, 1] :=
  ⟨by decide,
    frontier_order_independent (fun c m => (m + c, c))
      (fun _ => (0 : Nat), 0) [1, 2] [2, 1] (by decide)⟩

/-- Look up a method's body (its call-site reference list) in the body
environment; an absent method has no call sites. -/
def lookupBody (env : List (Nat × List Nat)) (i : Nat) : List Nat :=
  match env.find? (fun p => p.1 == i) with
  | some p => p.2
  | none => []

/-- Replace method `i`'s body in the environment. -/
def updateBody (env : List (Nat × List Nat)) (i : Nat) (b : List Nat) :
    List (Nat × List Nat) :=
  env.map (fun p => if p.1 == i then (p.1, b) else p)

/-- Modelled from the spec: one inlining step on a body abstracted to the
list of methods its call sites reference — every call site whose target is
a candidate is replaced by the callee's current (already processed, fully
inlined) body; other call sites stay (§4.4, control flow). -/
def expandBody (cand : List Nat) (env : List (Nat × List Nat))
    (body : List Nat) : List Nat :=
  body.foldr
    (fun r acc => (if r ∈ cand then lookupBody env r else [r]) ++ acc) []

/-- Modelled from the spec: bottom-up processing over the call graph
(§4.6) — callees are fully decided before their callers, so each method in
the order gets its candidate call sites replaced by the callees' final
bodies. -/
def bottomUp (cand : List Nat) (order : List Nat)
    (env : List (Nat × List Nat)) : List (Nat × List Nat) :=
  order.foldl (fun e i => updateBody e i (expandBody cand e (lookupBody e i)))
    env

/-- Whether, in the final bodies, some method of another class still
references method `p` at a call site. -/
def referencedCrossClass (cls : Nat → Nat) (env : List (Nat × List Nat))
    (p : Nat) : Bool :=
  env.any (fun q => cls q.1 != cls p && q.2.contains p)

/-- Modelled from the spec: the visibility relaxation accompanying a
splice (§4.2) — a method is public after `inline_methods` iff it was
public before or a spliced body in another class still references it; a
private method none of whose call sites survive retains its access. -/
def publicAfter (cls : Nat → Nat) (wasPublic : Nat → Bool)
    (env : List (Nat × List Nat)) (p : Nat) : Bool :=
  wasPublic p || referencedCrossClass cls env p

/-- Class assignment of the `visibility_change_static_invoke` scenario:
method 3 (`LBar;.caller`) is in class 1 (LBar;), everything else —
0 `callee`, 1 `nested_callee`, 2 `nested_callee_2`, 4 `caller_inside`,
5 `<init>` — in class 0 (LFoo;). -/
def visCls : Nat → Nat := fun i => if i = 3 then 1 else 0

/-- Pre-run visibility: `callee`, `caller` and `<init>` are public;
`nested_callee`, `nested_callee_2` and `caller_inside` are private. -/
def visWasPublic : Nat → Bool := fun i => i == 0 || i == 3 || i == 5

/-- Pre-run bodies (call-site reference lists): `callee` calls `<init>`
and `nested_callee`; `nested_callee` calls `nested_callee_2`; `caller`
calls `callee`; `caller_inside` calls `nested_callee`. -/
def visEnv0 : List (Nat × List Nat) :=
  [(0, [5, 1]), (1, [2]), (2, []), (3, [0]), (4, [1]), (5, [])]

/-- The candidate set of the scenario: `callee` and `nested_callee`. -/
def visCand : List Nat := [0, 1]

/-- A bottom-up processing order: `nested_callee`, then `callee`, then the
callers. -/
def visOrder : List Nat := [1, 0, 3, 4]

/-- The final bodies of the scenario. -/
def visEnvF : List (Nat × List Nat) := bottomUp visCand visOrder visEnv0

/-- Claim C10: inlining changes visibility of methods not in the inline
plan: a private method still referenced from a spliced body in another
class is made public (here `nested_callee_2`, referenced from
`LBar;.caller` after the nested splices), while a private method whose own
call sites were all themselves inlined away is referenced by nobody and
retains its private access (here `nested_callee`). -/
theorem visibility_change_static_invoke (cls : Nat → Nat)
    (wasPublic : Nat → Bool) (env : List (Nat × List Nat))
    (p : Nat) (q : Nat × List Nat)
    (hq : q ∈ env) (hcls : cls q.1 ≠ cls p) (href : p ∈ q.2) :
    publicAfter cls wasPublic env p = true ∧
    (∀ cls2 wasPublic2 env2 p2, (∀ r ∈ env2, p2 ∉ r.2) →
      publicAfter cls2 wasPublic2 env2 p2 = wasPublic2 p2) ∧
    publicAfter visCls visWasPublic visEnvF 2 = true ∧
    publicAfter visCls visWasPublic visEnvF 1 = false := by
  refine ⟨?_, ?_, by decide, by decide⟩
  · unfold publicAfter referencedCrossClass
    have : env.any (fun r => cls r.1 != cls p && r.2.contains p) = true := by
      rw [List.any_eq_true]
      exact ⟨q, hq, by
        rw [Bool.and_eq_true, bne_iff_ne]
        exact ⟨hcls, List.elem_eq_true_of_mem href⟩⟩
    rw [this, Bool.or_true]
  · intro cls2 wasPublic2 env2 p2 hnone
    unfold publicAfter referencedCrossClass
    have : env2.any (fun r => cls2 r.1 != cls2 p2 && r.2.contains p2) =
        false := by
      rw [List.any_eq_false]
      intro r hr
      rw [Bool.and_eq_true, not_and]
      intro _
      simpa using hnone r hr
    rw [this, Bool.or_false]

/-- Witness for C10 at the `visibility_change_static_invoke` scenario:
`LBar;.caller`'s final body references `nested_callee_2` across the class
boundary, so it is public, while `nested_callee` is referenced by nobody
and stays private. -/
theorem visibility_change_static_invoke_witness :
    ((3, [5, 2]) ∈ visEnvF) ∧ (visCls 3 ≠ visCls 2) ∧ ((2 : Nat) ∈ [5, 2]) ∧
    (publicAfter visCls visWasPublic visEnvF 2 = true ∧
      (∀ cls2 wasPublic2 env2 p2, (∀ r ∈ env2, p2 ∉ r.2) →
        publicAfter cls2 wasPublic2 env2 p2 = wasPublic2 p2) ∧
      publicAfter visCls visWasPublic visEnvF 2 = true ∧
      publicAfter visCls visWasPublic visEnvF 1 = false) :=
  ⟨by decide, by decide, by decide,
    visibility_change_static_invoke visCls visWasPublic visEnvF 2 (3, [5, 2])
      (by decide) (by decide) (by decide)⟩

end Redex
